import Mathlib

/-!
Formalisation of the cuVS scalar-quantization preprocessing API
(`cpp/include/cuvs/preprocessing/quantization.hpp`).

The header declares `sq_params`, `ScalarQuantizer<T, QuantI>`, `train_scalar`,
`transform` and `inverse_transform`.  The wide element type `T` is modelled by
`ℚ` (the specification states the mapping in exact arithmetic), the quantized
integer type `QuantI` by an explicit integer range `QuantRange` (its
`QuantI_MIN` / `QuantI_MAX` limits), and matrices by a row-major flattened
element list together with their shape.  Fallible operations return `Except`.
-/

namespace CuvsQuant

/-- Error taxonomy of the quantization subsystem (spec section 7). -/
inductive QuantErr where
  | InvalidConfig
  | InvalidInput
  | ShapeMismatch
deriving DecidableEq

/-- `sq_params` from the header: `float quantile = 0.99;`, required to lie in
the range `(0, 1]`. -/
structure sq_params where
  quantile : ℚ := 99 / 100
deriving DecidableEq

/-- `ScalarQuantizer<T, QuantI>` from the header: the trained state, holding
the retained value interval. -/
structure ScalarQuantizer where
  min_ : ℚ
  max_ : ℚ
deriving DecidableEq

/-- The representable range `[QuantI_MIN, QuantI_MAX]` of the narrow integer
type `QuantI` (a static type parameter in the C++ code). -/
structure QuantRange where
  qmin : ℤ
  qmax : ℤ
deriving DecidableEq

/-- The range of a signed 8-bit `QuantI` (`int8_t`): `[-128, 127]`. -/
def int8Range : QuantRange := ⟨-128, 127⟩

/-- A row-major matrix view: shape plus flattened element list. -/
structure MatrixView (α : Type) where
  rows : ℕ
  cols : ℕ
  data : List α
deriving DecidableEq

/-- Modelled from the spec: the scale factor of the affine map,
`scale = (QuantI_MAX - QuantI_MIN) / (max_ - min_)` (spec section 4.2; the
implementation body of the transform engine is not part of the header). -/
def qscale (qp : QuantRange) (sq : ScalarQuantizer) : ℚ :=
  ((qp.qmax : ℚ) - (qp.qmin : ℚ)) / (sq.max_ - sq.min_)

/-- Saturating clamp of an integer to `[QuantI_MIN, QuantI_MAX]`. -/
def clampq (qp : QuantRange) (q : ℤ) : ℤ :=
  max qp.qmin (min qp.qmax q)

/-- Modelled from the spec: the midpoint of `[QuantI_MIN, QuantI_MAX]`, the
constant output of `transform` in the degenerate case `max_ == min_`
(spec section 4.2). -/
def qmid (qp : QuantRange) : ℤ :=
  round (((qp.qmin : ℚ) + (qp.qmax : ℚ)) / 2)

/-- Modelled from the spec: the per-element forward map of `transform`
(spec section 4.2): `q = round((x - min_) * scale) + QuantI_MIN`, clamped to
`[QuantI_MIN, QuantI_MAX]`; if `max_ == min_` every input maps to the
midpoint of the output range.  The implementation body is not part of the
header, only its contract. -/
def transform_elem (qp : QuantRange) (sq : ScalarQuantizer) (x : ℚ) : ℤ :=
  if sq.min_ < sq.max_ then
    clampq qp (round ((x - sq.min_) * qscale qp sq) + qp.qmin)
  else
    qmid qp

/-- Modelled from the spec: the per-element map of `inverse_transform`
(spec section 4.2): `x' = (q - QuantI_MIN) / scale + min_`. -/
def inverse_transform_elem (qp : QuantRange) (sq : ScalarQuantizer) (q : ℤ) : ℚ :=
  ((q : ℚ) - (qp.qmin : ℚ)) / qscale qp sq + sq.min_

/-- The flattened dataset in ascending value order (the order statistics of
the flat population of all elements, spec section 4.1). -/
def sortedData (dataset : MatrixView ℚ) : List ℚ :=
  List.insertionSort (· ≤ ·) dataset.data

/-- The lower cutoff rank `⌊(1-quantile)/2 * N⌋` of spec section 4.1. -/
def lowRank (params : sq_params) (N : ℕ) : ℕ :=
  (⌊(1 - params.quantile) / 2 * (N : ℚ)⌋).toNat

/-- Modelled from the spec: `train_scalar` (spec section 4.1; only declared in
the header).  Validates the configuration and the dataset shape, then takes
the order statistics at ranks `⌊(1-quantile)/2 * N⌋` and `N - ⌊(1-quantile)/2 * N⌋`
of the flattened dataset as the retained interval. -/
def train_scalar (params : sq_params) (dataset : MatrixView ℚ) :
    Except QuantErr ScalarQuantizer :=
  if params.quantile ≤ 0 ∨ 1 < params.quantile then .error .InvalidConfig
  else if dataset.rows = 0 ∨ dataset.cols = 0 then .error .InvalidInput
  else
    let N : ℕ := dataset.rows * dataset.cols
    let lo : ℕ := lowRank params N
    .ok ⟨(sortedData dataset).getD lo 0, (sortedData dataset).getD (N - lo - 1) 0⟩

/-- Modelled from the spec: the host-matrix form of `transform`
(spec section 4.2). The output shape is validated before any element is
produced; on success every element of the flattened dataset is mapped
independently. -/
def transform (qp : QuantRange) (sq : ScalarQuantizer) (dataset : MatrixView ℚ)
    (outRows outCols : ℕ) : Except QuantErr (MatrixView ℤ) :=
  if outRows = dataset.rows ∧ outCols = dataset.cols then
    .ok ⟨dataset.rows, dataset.cols, dataset.data.map (transform_elem qp sq)⟩
  else .error .ShapeMismatch

/-- Modelled from the spec: the host-matrix form of `inverse_transform`
(spec section 4.2), with the same shape validation. -/
def inverse_transform (qp : QuantRange) (sq : ScalarQuantizer)
    (dataset : MatrixView ℤ) (outRows outCols : ℕ) :
    Except QuantErr (MatrixView ℚ) :=
  if outRows = dataset.rows ∧ outCols = dataset.cols then
    .ok ⟨dataset.rows, dataset.cols, dataset.data.map (inverse_transform_elem qp sq)⟩
  else .error .ShapeMismatch

/-- Modelled from the spec: the device-matrix form of `train_scalar`
(spec sections 4.1 and 5).  The device substrate may use any exact rank
selection algorithm; it is modelled by a different exact sort (merge sort,
the standard parallel sorting network shape) over the same flattened data. -/
def train_scalar_device (params : sq_params) (dataset : MatrixView ℚ) :
    Except QuantErr ScalarQuantizer :=
  if params.quantile ≤ 0 ∨ 1 < params.quantile then .error .InvalidConfig
  else if dataset.rows = 0 ∨ dataset.cols = 0 then .error .InvalidInput
  else
    let N : ℕ := dataset.rows * dataset.cols
    let sorted := dataset.data.mergeSort (fun a b => decide (a ≤ b))
    let lo : ℕ := lowRank params N
    .ok ⟨sorted.getD lo 0, sorted.getD (N - lo - 1) 0⟩

/-- Modelled from the spec: the device-matrix form of `transform`
(spec sections 4.2 and 5): each flat output index is computed by an
independent parallel thread reading the input element at the same index. -/
def transform_device (qp : QuantRange) (sq : ScalarQuantizer)
    (dataset : MatrixView ℚ) (outRows outCols : ℕ) :
    Except QuantErr (MatrixView ℤ) :=
  if outRows = dataset.rows ∧ outCols = dataset.cols then
    .ok ⟨dataset.rows, dataset.cols,
         List.ofFn (fun i : Fin dataset.data.length =>
           transform_elem qp sq (dataset.data.get i))⟩
  else .error .ShapeMismatch

/-- Modelled from the spec: the device-matrix form of `inverse_transform`
(spec sections 4.2 and 5), per-index independent computation. -/
def inverse_transform_device (qp : QuantRange) (sq : ScalarQuantizer)
    (dataset : MatrixView ℤ) (outRows outCols : ℕ) :
    Except QuantErr (MatrixView ℚ) :=
  if outRows = dataset.rows ∧ outCols = dataset.cols then
    .ok ⟨dataset.rows, dataset.cols,
         List.ofFn (fun i : Fin dataset.data.length =>
           inverse_transform_elem qp sq (dataset.data.get i))⟩
  else .error .ShapeMismatch

/-! Helper lemmas about rounding, clamping and sorted lists. -/

lemma round_mono {x y : ℚ} (h : x ≤ y) : round x ≤ round y := by
  rw [round_eq, round_eq]
  exact Int.floor_le_floor (by linarith)

lemma clampq_eq_self {qp : QuantRange} {v : ℤ} (h1 : qp.qmin ≤ v) (h2 : v ≤ qp.qmax) :
    clampq qp v = v := by
  rw [clampq, min_eq_right h2, max_eq_right h1]

lemma clampq_eq_qmin {qp : QuantRange} {v : ℤ} (hq : qp.qmin ≤ qp.qmax) (h : v ≤ qp.qmin) :
    clampq qp v = qp.qmin := by
  rw [clampq, min_eq_right (le_trans h hq), max_eq_left h]

lemma clampq_eq_qmax {qp : QuantRange} {v : ℤ} (hq : qp.qmin ≤ qp.qmax) (h : qp.qmax ≤ v) :
    clampq qp v = qp.qmax := by
  rw [clampq, min_eq_left h, max_eq_right hq]

lemma sorted_getElem_mono {s : List ℚ} (hs : s.Sorted (· ≤ ·)) {i j : ℕ}
    (hi : i < s.length) (hj : j < s.length) (hij : i ≤ j) : s[i] ≤ s[j] := by
  rcases Nat.lt_or_ge i j with h | h
  · have hlt : (⟨i, hi⟩ : Fin s.length) < ⟨j, hj⟩ := h
    simpa [List.get_eq_getElem] using List.Sorted.rel_get_of_lt hs hlt
  · have hij2 : i = j := le_antisymm hij h
    subst hij2
    exact le_refl _

lemma sorted_le_of_mem_drop {s : List ℚ} (hs : s.Sorted (· ≤ ·)) {n : ℕ}
    (hn : n < s.length) : ∀ y ∈ s.drop n, s[n] ≤ y := by
  intro y hy
  obtain ⟨j, hj, rfl⟩ := List.mem_iff_getElem.mp hy
  have hj2 : n + j < s.length := by
    rw [List.length_drop] at hj
    omega
  rw [List.getElem_drop]
  exact sorted_getElem_mono hs hn hj2 (Nat.le_add_right n j)

lemma sorted_mem_take_le {s : List ℚ} (hs : s.Sorted (· ≤ ·)) {n : ℕ}
    (hn : n < s.length) : ∀ y ∈ s.take (n + 1), y ≤ s[n] := by
  intro y hy
  obtain ⟨j, hj, rfl⟩ := List.mem_iff_getElem.mp hy
  have hj2 : j < s.length := by
    rw [List.length_take] at hj
    omega
  rw [List.getElem_take]
  apply sorted_getElem_mono hs hj2 hn
  rw [List.length_take] at hj
  omega

lemma countP_lt_le_of_le_drop {s : List ℚ} {n : ℕ} {v : ℚ}
    (hv : ∀ y ∈ s.drop n, v ≤ y) :
    s.countP (fun y => decide (y < v)) ≤ n := by
  conv_lhs => rw [← List.take_append_drop n s]
  rw [List.countP_append]
  have h1 : (s.take n).countP (fun y => decide (y < v)) ≤ n :=
    le_trans (List.countP_le_length _) (by rw [List.length_take]; exact min_le_left _ _)
  have h2 : (s.drop n).countP (fun y => decide (y < v)) = 0 := by
    rw [List.countP_eq_zero]
    intro a ha
    simp only [decide_eq_true_eq, not_lt]
    exact hv a ha
  omega

lemma countP_gt_le_of_le_take {s : List ℚ} {n : ℕ} {v : ℚ}
    (hv : ∀ y ∈ s.take n, y ≤ v) :
    s.countP (fun y => decide (v < y)) ≤ s.length - n := by
  conv_lhs => rw [← List.take_append_drop n s]
  rw [List.countP_append]
  have h1 : (s.take n).countP (fun y => decide (v < y)) = 0 := by
    rw [List.countP_eq_zero]
    intro a ha
    simp only [decide_eq_true_eq, not_lt]
    exact hv a ha
  have h2 : (s.drop n).countP (fun y => decide (v < y)) ≤ s.length - n :=
    le_trans (List.countP_le_length _) (by rw [List.length_drop])
  omega

/-! Helper lemmas about the trained range. -/

lemma sortedData_sorted (d : MatrixView ℚ) : (sortedData d).Sorted (· ≤ ·) :=
  List.sorted_insertionSort _ _

lemma sortedData_perm (d : MatrixView ℚ) : (sortedData d).Perm d.data :=
  List.perm_insertionSort _ _

lemma sortedData_length (d : MatrixView ℚ) : (sortedData d).length = d.data.length :=
  (sortedData_perm d).length_eq

lemma lowRank_cast_le {p : sq_params} {N : ℕ} (h1 : p.quantile ≤ 1) :
    (lowRank p N : ℚ) ≤ (1 - p.quantile) / 2 * N := by
  have hx0 : (0:ℚ) ≤ (1 - p.quantile) / 2 * N := by
    apply mul_nonneg (by linarith) (by positivity)
  have hfl : (0:ℤ) ≤ ⌊(1 - p.quantile) / 2 * (N : ℚ)⌋ := Int.floor_nonneg.mpr hx0
  have hcast : ((lowRank p N : ℕ) : ℚ) = ((⌊(1 - p.quantile) / 2 * (N : ℚ)⌋ : ℤ) : ℚ) := by
    rw [lowRank]
    exact_mod_cast congrArg Int.cast (Int.toNat_of_nonneg hfl)
  rw [hcast]
  exact Int.floor_le _

lemma lowRank_lt {p : sq_params} {N : ℕ} (h0 : 0 < p.quantile) (h1 : p.quantile ≤ 1)
    (hN : 0 < N) : lowRank p N < N := by
  have hle := @lowRank_cast_le p N h1
  have hNq : (1:ℚ) ≤ (N:ℚ) := by exact_mod_cast hN
  have hlt : (lowRank p N : ℚ) < (N:ℚ) := by
    nlinarith [mul_pos h0 (lt_of_lt_of_le zero_lt_one hNq)]
  exact_mod_cast hlt

lemma lowRank_eq_zero {p : sq_params} (hq : p.quantile = 1) (N : ℕ) :
    lowRank p N = 0 := by
  rw [lowRank, hq]
  norm_num

lemma train_scalar_eq_ok {p : sq_params} {d : MatrixView ℚ}
    (h0 : 0 < p.quantile) (h1 : p.quantile ≤ 1) (hr : d.rows ≠ 0) (hc : d.cols ≠ 0) :
    train_scalar p d = .ok ⟨(sortedData d).getD (lowRank p (d.rows * d.cols)) 0,
      (sortedData d).getD (d.rows * d.cols - lowRank p (d.rows * d.cols) - 1) 0⟩ := by
  rw [train_scalar, if_neg (by simp only [not_or, not_le, not_lt]; exact ⟨h0, h1⟩),
    if_neg (by simp only [not_or]; exact ⟨hr, hc⟩)]

lemma train_scalar_invalidConfig_iff (p : sq_params) (d : MatrixView ℚ) :
    train_scalar p d = .error .InvalidConfig ↔ p.quantile ≤ 0 ∨ 1 < p.quantile := by
  rw [train_scalar]
  by_cases h : p.quantile ≤ 0 ∨ 1 < p.quantile
  · rw [if_pos h]
    exact iff_of_true rfl h
  · rw [if_neg h]
    by_cases h2 : d.rows = 0 ∨ d.cols = 0
    · rw [if_pos h2]
      exact iff_of_false (by simp) h
    · rw [if_neg h2]
      exact iff_of_false (by simp) h

lemma train_scalar_invalidInput_iff (p : sq_params) (d : MatrixView ℚ) :
    train_scalar p d = .error .InvalidInput ↔
      (0 < p.quantile ∧ p.quantile ≤ 1) ∧ (d.rows = 0 ∨ d.cols = 0) := by
  rw [train_scalar]
  by_cases h : p.quantile ≤ 0 ∨ 1 < p.quantile
  · rw [if_pos h]
    apply iff_of_false (by simp)
    rintro ⟨⟨h0, h1⟩, -⟩
    rcases h with h | h <;> linarith
  · rw [if_neg h]
    push_neg at h
    by_cases h2 : d.rows = 0 ∨ d.cols = 0
    · rw [if_pos h2]
      exact iff_of_true rfl ⟨h, h2⟩
    · rw [if_neg h2]
      apply iff_of_false (by simp)
      rintro ⟨-, hcon⟩
      exact h2 hcon

/-! Helper lemmas connecting the device forms to the host forms. -/

lemma mergeSort_eq_insertionSort (l : List ℚ) :
    l.mergeSort (fun a b => decide (a ≤ b)) = List.insertionSort (· ≤ ·) l :=
  List.eq_of_perm_of_sorted
    ((List.mergeSort_perm l _).trans (List.perm_insertionSort _ l).symm)
    (List.sorted_mergeSort' l) (List.sorted_insertionSort _ l)

lemma ofFn_get_map {α β : Type} (f : α → β) (l : List α) :
    List.ofFn (fun i : Fin l.length => f (l.get i)) = l.map f := by
  rw [show (fun i : Fin l.length => f (l.get i)) = f ∘ l.get from rfl, ← List.map_ofFn,
    List.ofFn_get]

/-! Claim theorems. -/

/-- C1: for every trained quantizer with `max_ > min_`, `transform` computes
`q = round((x - min_) * scale) + QuantI_MIN` with
`scale = (QuantI_MAX - QuantI_MIN) / (max_ - min_)`, clamped to
`[QuantI_MIN, QuantI_MAX]`; and for the dataset `[[0,10],[20,30]]` trained with
`quantile = 1` into a signed 8-bit type, `transform` maps `0 ↦ -128`,
`30 ↦ 127`, `10 ↦ -43` and `20 ↦ 42`. -/
theorem transform_affine_formula_scenario :
    (∀ (qp : QuantRange) (sq : ScalarQuantizer) (x : ℚ), sq.min_ < sq.max_ →
      transform_elem qp sq x =
        clampq qp (round ((x - sq.min_) *
          (((qp.qmax : ℚ) - (qp.qmin : ℚ)) / (sq.max_ - sq.min_))) + qp.qmin)) ∧
    train_scalar ⟨1⟩ ⟨2, 2, [0, 10, 20, 30]⟩ = .ok ⟨0, 30⟩ ∧
    transform_elem int8Range ⟨0, 30⟩ 0 = -128 ∧
    transform_elem int8Range ⟨0, 30⟩ 30 = 127 ∧
    transform_elem int8Range ⟨0, 30⟩ 10 = -43 ∧
    transform_elem int8Range ⟨0, 30⟩ 20 = 42 := by
  refine ⟨fun qp sq x h => by rw [transform_elem, if_pos h, qscale], ?_, ?_, ?_, ?_, ?_⟩
  · norm_num [train_scalar, sortedData, lowRank, List.insertionSort, List.orderedInsert]
  all_goals norm_num [transform_elem, clampq, qscale, int8Range, round_eq]

/-- C1 witness: the formula instantiated at the quantizer trained on the
scenario dataset and the input `10`. -/
theorem transform_affine_formula_scenario_witness :
    (⟨0, 30⟩ : ScalarQuantizer).min_ < (⟨0, 30⟩ : ScalarQuantizer).max_ ∧
    transform_elem int8Range ⟨0, 30⟩ 10 =
      clampq int8Range (round (((10 : ℚ) - (⟨0, 30⟩ : ScalarQuantizer).min_) *
        (((int8Range.qmax : ℚ) - (int8Range.qmin : ℚ)) /
          ((⟨0, 30⟩ : ScalarQuantizer).max_ - (⟨0, 30⟩ : ScalarQuantizer).min_))) +
        int8Range.qmin) :=
  ⟨by norm_num,
   transform_affine_formula_scenario.1 int8Range ⟨0, 30⟩ 10 (by norm_num)⟩

/-- C2 counterexample: the claim quantifies over every trained quantizer, but
training on the constant dataset `[5]` yields `min_ = max_ = 5`, and then the
input `4 < min_` maps to the midpoint `0`, not to `QuantI_MIN = -128`. -/
theorem transform_saturation_cex :
    train_scalar ⟨1⟩ ⟨1, 1, [5]⟩ = .ok ⟨5, 5⟩ ∧
    (4 : ℚ) < (⟨5, 5⟩ : ScalarQuantizer).min_ ∧
    transform_elem int8Range ⟨5, 5⟩ 4 = 0 ∧
    int8Range.qmin = -128 ∧ (0 : ℤ) ≠ -128 := by
  refine ⟨?_, by norm_num, ?_, rfl, by decide⟩
  · norm_num [train_scalar, sortedData, lowRank, List.insertionSort, List.orderedInsert]
  · norm_num [transform_elem, qmid, int8Range, round_eq]

/-- C2 amended: for every quantizer with `max_ > min_` (and a non-degenerate
quantized type), every `x < min_` maps to `QuantI_MIN` and every `x > max_`
maps to `QuantI_MAX` (saturating clamp). -/
theorem transform_saturation (qp : QuantRange) (sq : ScalarQuantizer) (x : ℚ)
    (hq : qp.qmin ≤ qp.qmax) (hm : sq.min_ < sq.max_) :
    (x < sq.min_ → transform_elem qp sq x = qp.qmin) ∧
    (sq.max_ < x → transform_elem qp sq x = qp.qmax) := by
  have hD : (0:ℚ) < sq.max_ - sq.min_ := by linarith
  have hM : (0:ℚ) ≤ (qp.qmax : ℚ) - (qp.qmin : ℚ) := by
    have hcast : (qp.qmin : ℚ) ≤ (qp.qmax : ℚ) := by exact_mod_cast hq
    linarith
  have hs : 0 ≤ qscale qp sq := div_nonneg hM (le_of_lt hD)
  constructor
  · intro hx
    have ht : (x - sq.min_) * qscale qp sq ≤ 0 :=
      mul_nonpos_iff.mpr (Or.inr ⟨by linarith, hs⟩)
    have hr : round ((x - sq.min_) * qscale qp sq) ≤ 0 := by
      have h := round_mono ht
      simpa using h
    rw [transform_elem, if_pos hm]
    exact clampq_eq_qmin hq (by omega)
  · intro hx
    have hDs : (sq.max_ - sq.min_) * qscale qp sq = (qp.qmax : ℚ) - (qp.qmin : ℚ) := by
      rw [qscale]
      field_simp
    have hM2 : ((qp.qmax - qp.qmin : ℤ) : ℚ) ≤ (x - sq.min_) * qscale qp sq := by
      push_cast
      calc (qp.qmax : ℚ) - (qp.qmin : ℚ) = (sq.max_ - sq.min_) * qscale qp sq := hDs.symm
        _ ≤ (x - sq.min_) * qscale qp sq :=
            mul_le_mul_of_nonneg_right (by linarith) hs
    have hr : qp.qmax - qp.qmin ≤ round ((x - sq.min_) * qscale qp sq) := by
      have h := round_mono hM2
      rwa [round_intCast] at h
    rw [transform_elem, if_pos hm]
    exact clampq_eq_qmax hq (by omega)

/-- C2 witness: saturation applied to the quantizer `[0, 30]` at `-5 < min_`. -/
theorem transform_saturation_witness :
    transform_elem int8Range ⟨0, 30⟩ (-5) = int8Range.qmin :=
  (transform_saturation int8Range ⟨0, 30⟩ (-5) (by decide) (by norm_num)).1 (by norm_num)

/-- C6: for every quantizer with `max_ == min_`, `transform` is total (the
model never divides: the degenerate branch is taken before the scale is used)
and maps every input to the constant midpoint of `[QuantI_MIN, QuantI_MAX]`. -/
theorem transform_degenerate_midpoint (qp : QuantRange) (sq : ScalarQuantizer) (x : ℚ)
    (h : sq.max_ = sq.min_) : transform_elem qp sq x = qmid qp := by
  rw [transform_elem, if_neg (by rw [h]; exact lt_irrefl _)]

/-- C6 witness: the degenerate quantizer `[5, 5]` maps `100` to the
midpoint. -/
theorem transform_degenerate_midpoint_witness :
    (⟨5, 5⟩ : ScalarQuantizer).max_ = (⟨5, 5⟩ : ScalarQuantizer).min_ ∧
    transform_elem int8Range ⟨5, 5⟩ 100 = qmid int8Range :=
  ⟨rfl, transform_degenerate_midpoint int8Range ⟨5, 5⟩ 100 rfl⟩

/-- C8: whenever the `out` shape differs from the `dataset` shape, `transform`
and `inverse_transform` fail with `ShapeMismatch` and produce no output
elements (the error result carries no matrix). -/
theorem shape_mismatch_checked_first (qp : QuantRange) (sq : ScalarQuantizer)
    (d : MatrixView ℚ) (dz : MatrixView ℤ) (outR outC : ℕ) :
    (¬(outR = d.rows ∧ outC = d.cols) →
      transform qp sq d outR outC = .error .ShapeMismatch) ∧
    (¬(outR = dz.rows ∧ outC = dz.cols) →
      inverse_transform qp sq dz outR outC = .error .ShapeMismatch) :=
  ⟨fun h => by rw [transform, if_neg h], fun h => by rw [inverse_transform, if_neg h]⟩

/-- C8 witness: a `3 × 1` output shape against a `1 × 2` dataset fails in both
directions. -/
theorem shape_mismatch_checked_first_witness :
    ¬((3 : ℕ) = (⟨1, 2, [1, 2]⟩ : MatrixView ℚ).rows ∧
        (1 : ℕ) = (⟨1, 2, [1, 2]⟩ : MatrixView ℚ).cols) ∧
    transform int8Range ⟨0, 30⟩ ⟨1, 2, [1, 2]⟩ 3 1 = .error .ShapeMismatch ∧
    inverse_transform int8Range ⟨0, 30⟩ ⟨1, 2, [1, 2]⟩ 3 1 = .error .ShapeMismatch :=
  ⟨by decide,
   (shape_mismatch_checked_first int8Range ⟨0, 30⟩ ⟨1, 2, [1, 2]⟩ ⟨1, 2, [1, 2]⟩ 3 1).1
     (by decide),
   (shape_mismatch_checked_first int8Range ⟨0, 30⟩ ⟨1, 2, [1, 2]⟩ ⟨1, 2, [1, 2]⟩ 3 1).2
     (by decide)⟩

/-- C9 counterexample: with `quantile = 2` and an empty dataset both error
conditions hold, and the call reports `InvalidConfig`, so the claimed
equivalence "raises `InvalidInput` iff the dataset is empty" fails. -/
theorem train_error_priority_cex :
    (⟨0, 0, []⟩ : MatrixView ℚ).rows = 0 ∧
    train_scalar ⟨2⟩ ⟨0, 0, []⟩ = .error .InvalidConfig ∧
    train_scalar ⟨2⟩ ⟨0, 0, []⟩ ≠ .error .InvalidInput := by
  refine ⟨rfl, ?_, ?_⟩
  · norm_num [train_scalar]
  · norm_num [train_scalar]
    decide

/-- C9 amended: `train_scalar` fails with `InvalidConfig` iff
`quantile ≤ 0 ∨ quantile > 1`, fails with `InvalidInput` iff the quantile is
valid and the dataset is empty (the configuration check takes precedence when
both are violated), and succeeds otherwise; a failed call carries no
quantizer. -/
theorem train_error_taxonomy (p : sq_params) (d : MatrixView ℚ) :
    (train_scalar p d = .error .InvalidConfig ↔ p.quantile ≤ 0 ∨ 1 < p.quantile) ∧
    (train_scalar p d = .error .InvalidInput ↔
      (0 < p.quantile ∧ p.quantile ≤ 1) ∧ (d.rows = 0 ∨ d.cols = 0)) ∧
    ((0 < p.quantile ∧ p.quantile ≤ 1) ∧ d.rows ≠ 0 ∧ d.cols ≠ 0 →
      ∃ sq, train_scalar p d = .ok sq) := by
  refine ⟨train_scalar_invalidConfig_iff p d, train_scalar_invalidInput_iff p d, ?_⟩
  rintro ⟨⟨h0, h1⟩, hr, hc⟩
  exact ⟨_, train_scalar_eq_ok h0 h1 hr hc⟩

/-- C9 witness: a valid configuration and non-empty dataset yields a trained
quantizer. -/
theorem train_error_taxonomy_witness :
    ∃ sq, train_scalar ⟨99/100⟩ ⟨1, 1, [5]⟩ = .ok sq :=
  (train_error_taxonomy ⟨99/100⟩ ⟨1, 1, [5]⟩).2.2
    ⟨⟨by norm_num, by norm_num⟩, one_ne_zero, one_ne_zero⟩

/-- C10: a default-constructed `sq_params` has `quantile = 0.99`, inside the
valid range `(0, 1]`, so training with it never fails with `InvalidConfig`. -/
theorem default_params_never_invalid_config :
    ({} : sq_params).quantile = 99 / 100 ∧
    0 < ({} : sq_params).quantile ∧ ({} : sq_params).quantile ≤ 1 ∧
    ∀ d : MatrixView ℚ, train_scalar {} d ≠ .error .InvalidConfig := by
  refine ⟨rfl, by norm_num, by norm_num, fun d h => ?_⟩
  rw [train_scalar_invalidConfig_iff] at h
  norm_num at h

/-- C3: for every quantizer with `max_ > min_` and every `x ∈ [min_, max_]`,
`inverse_transform (transform x)` differs from `x` by at most one quantization
step `(max_ - min_) / (QuantI_MAX - QuantI_MIN)`. -/
theorem roundtrip_within_one_step (qp : QuantRange) (sq : ScalarQuantizer) (x : ℚ)
    (hq : qp.qmin < qp.qmax) (hm : sq.min_ < sq.max_)
    (hx1 : sq.min_ ≤ x) (hx2 : x ≤ sq.max_) :
    |inverse_transform_elem qp sq (transform_elem qp sq x) - x|
      ≤ (sq.max_ - sq.min_) / ((qp.qmax : ℚ) - (qp.qmin : ℚ)) := by
  have hD : (0:ℚ) < sq.max_ - sq.min_ := by linarith
  have hDne : sq.max_ - sq.min_ ≠ 0 := ne_of_gt hD
  have hMq : (qp.qmin : ℚ) < (qp.qmax : ℚ) := by exact_mod_cast hq
  have hM : (0:ℚ) < (qp.qmax : ℚ) - (qp.qmin : ℚ) := by linarith
  have hMne : (qp.qmax : ℚ) - (qp.qmin : ℚ) ≠ 0 := ne_of_gt hM
  have hs : 0 < qscale qp sq := div_pos hM hD
  have hDs : (sq.max_ - sq.min_) * qscale qp sq = (qp.qmax : ℚ) - (qp.qmin : ℚ) := by
    rw [qscale]
    field_simp
  have ht0 : 0 ≤ (x - sq.min_) * qscale qp sq :=
    mul_nonneg (by linarith) (le_of_lt hs)
  have htM : (x - sq.min_) * qscale qp sq ≤ ((qp.qmax - qp.qmin : ℤ) : ℚ) := by
    push_cast
    calc (x - sq.min_) * qscale qp sq
        ≤ (sq.max_ - sq.min_) * qscale qp sq :=
          mul_le_mul_of_nonneg_right (by linarith) (le_of_lt hs)
      _ = (qp.qmax : ℚ) - (qp.qmin : ℚ) := hDs
  have hr0 : 0 ≤ round ((x - sq.min_) * qscale qp sq) := by
    have h := round_mono ht0
    simpa using h
  have hrM : round ((x - sq.min_) * qscale qp sq) ≤ qp.qmax - qp.qmin := by
    have h := round_mono htM
    rwa [round_intCast] at h
  have htrans : transform_elem qp sq x
      = round ((x - sq.min_) * qscale qp sq) + qp.qmin := by
    rw [transform_elem, if_pos hm]
    exact clampq_eq_self (by omega) (by omega)
  rw [htrans, inverse_transform_elem]
  have halg : ∀ (r : ℤ) (t s mn xx : ℚ), s ≠ 0 → t = (xx - mn) * s →
      (((r + qp.qmin : ℤ) : ℚ) - (qp.qmin : ℚ)) / s + mn - xx = ((r : ℚ) - t) / s := by
    intro r t s mn xx hs0 htdef
    subst htdef
    push_cast
    field_simp
    ring
  rw [halg (round ((x - sq.min_) * qscale qp sq)) _ _ _ _ (ne_of_gt hs) rfl,
    abs_div, abs_of_pos hs, div_le_iff₀ hs]
  have hone : (sq.max_ - sq.min_) / ((qp.qmax : ℚ) - (qp.qmin : ℚ)) * qscale qp sq = 1 := by
    rw [qscale]
    field_simp
  rw [hone]
  have habs := abs_sub_round ((x - sq.min_) * qscale qp sq)
  rw [abs_sub_comm] at habs
  linarith

/-- C3 witness: the bound instantiated at the scenario quantizer `[0, 30]`
and `x = 10`. -/
theorem roundtrip_within_one_step_witness :
    int8Range.qmin < int8Range.qmax ∧
    |inverse_transform_elem int8Range ⟨0, 30⟩ (transform_elem int8Range ⟨0, 30⟩ 10) - 10|
      ≤ ((⟨0, 30⟩ : ScalarQuantizer).max_ - (⟨0, 30⟩ : ScalarQuantizer).min_) /
        ((int8Range.qmax : ℚ) - (int8Range.qmin : ℚ)) :=
  ⟨by decide,
   roundtrip_within_one_step int8Range ⟨0, 30⟩ 10 (by decide) (by norm_num)
     (by norm_num) (by norm_num)⟩

/-- C4: training with `quantile = 1` on a non-empty dataset returns the exact
dataset minimum and maximum: `min_` and `max_` are elements of the dataset and
bound every element. -/
theorem train_quantile_one_exact_range (p : sq_params) (d : MatrixView ℚ)
    (sq : ScalarQuantizer) (hq : p.quantile = 1) (hr : d.rows ≠ 0) (hc : d.cols ≠ 0)
    (hlen : d.data.length = d.rows * d.cols)
    (htr : train_scalar p d = .ok sq) :
    sq.min_ ∈ d.data ∧ sq.max_ ∈ d.data ∧
    ∀ y ∈ d.data, sq.min_ ≤ y ∧ y ≤ sq.max_ := by
  have h0 : 0 < p.quantile := by rw [hq]; norm_num
  have h1 : p.quantile ≤ 1 := le_of_eq hq
  have hN : 0 < d.rows * d.cols := by
    rcases Nat.eq_zero_or_pos (d.rows * d.cols) with h | h
    · rcases Nat.mul_eq_zero.mp h with h' | h'
      exacts [absurd h' hr, absurd h' hc]
    · exact h
  have hslen : (sortedData d).length = d.rows * d.cols := by
    rw [sortedData_length, hlen]
  rw [train_scalar_eq_ok h0 h1 hr hc] at htr
  injection htr with h
  rw [lowRank_eq_zero hq] at h
  have hzero : 0 < (sortedData d).length := by rw [hslen]; exact hN
  have hlast : d.rows * d.cols - 0 - 1 < (sortedData d).length := by rw [hslen]; omega
  have hmin : sq.min_ = (sortedData d)[0] := by
    rw [← h]
    exact List.getD_eq_getElem _ _ hzero
  have hmax : sq.max_ = (sortedData d)[d.rows * d.cols - 0 - 1] := by
    rw [← h]
    exact List.getD_eq_getElem _ _ hlast
  refine ⟨?_, ?_, ?_⟩
  · rw [hmin]
    exact (sortedData_perm d).subset (List.getElem_mem _)
  · rw [hmax]
    exact (sortedData_perm d).subset (List.getElem_mem _)
  · intro y hy
    have hy2 : y ∈ sortedData d := ((sortedData_perm d).mem_iff).mpr hy
    obtain ⟨j, hj, rfl⟩ := List.mem_iff_getElem.mp hy2
    constructor
    · rw [hmin]
      exact sorted_getElem_mono (sortedData_sorted d) hzero hj (Nat.zero_le j)
    · rw [hmax]
      apply sorted_getElem_mono (sortedData_sorted d) hj hlast
      rw [hslen] at hj
      omega

/-- C4 witness: the scenario dataset `[[0,10],[20,30]]` trained with
`quantile = 1` yields exactly the dataset minimum `0` and maximum `30`. -/
theorem train_quantile_one_exact_range_witness :
    (⟨0, 30⟩ : ScalarQuantizer).min_ ∈ ([0, 10, 20, 30] : List ℚ) ∧
    (⟨0, 30⟩ : ScalarQuantizer).max_ ∈ ([0, 10, 20, 30] : List ℚ) ∧
    ∀ y ∈ ([0, 10, 20, 30] : List ℚ),
      (⟨0, 30⟩ : ScalarQuantizer).min_ ≤ y ∧ y ≤ (⟨0, 30⟩ : ScalarQuantizer).max_ :=
  train_quantile_one_exact_range ⟨1⟩ ⟨2, 2, [0, 10, 20, 30]⟩ ⟨0, 30⟩ rfl
    (by decide) (by decide) rfl
    (by norm_num [train_scalar, sortedData, lowRank, List.insertionSort, List.orderedInsert])

/-- C5 counterexample: for the dataset `[1,1,1,1,1,7,8,9]` with
`quantile = 1/2` the trained range is `[1, 7]`; zero elements lie strictly
below `min_` while two lie strictly above `max_`, so the two tail counts
differ by two, refuting "the two tail counts differ by at most one". -/
theorem train_tail_symmetry_cex :
    train_scalar ⟨1/2⟩ ⟨2, 4, [1, 1, 1, 1, 1, 7, 8, 9]⟩ = .ok ⟨1, 7⟩ ∧
    ([1, 1, 1, 1, 1, 7, 8, 9] : List ℚ).countP (fun y => decide (y < 1)) = 0 ∧
    ([1, 1, 1, 1, 1, 7, 8, 9] : List ℚ).countP (fun y => decide ((7:ℚ) < y)) = 2 := by
  refine ⟨?_, by decide, by decide⟩
  norm_num [train_scalar, sortedData, lowRank, List.insertionSort, List.orderedInsert]
  decide

/-- C5 amended: for `0 < quantile < 1` the trained cutoffs are the order
statistics at ranks `⌊(1-quantile)/2 * N⌋` and `N - ⌊(1-quantile)/2 * N⌋` of
the flattened dataset; each tail count is at most `⌊(1-quantile)/2 * N⌋`
(the same bound for both tails, though the counts themselves may differ by
more than one when values repeat), so their sum is at most
`N * (1 - quantile)`. -/
theorem train_tail_bounds (p : sq_params) (d : MatrixView ℚ) (sq : ScalarQuantizer)
    (h0 : 0 < p.quantile) (h1 : p.quantile < 1)
    (hr : d.rows ≠ 0) (hc : d.cols ≠ 0)
    (hlen : d.data.length = d.rows * d.cols)
    (htr : train_scalar p d = .ok sq) :
    sq.min_ = (sortedData d).getD (lowRank p (d.rows * d.cols)) 0 ∧
    sq.max_ = (sortedData d).getD
      (d.rows * d.cols - lowRank p (d.rows * d.cols) - 1) 0 ∧
    d.data.countP (fun y => decide (y < sq.min_)) ≤ lowRank p (d.rows * d.cols) ∧
    d.data.countP (fun y => decide (sq.max_ < y)) ≤ lowRank p (d.rows * d.cols) ∧
    ((d.data.countP (fun y => decide (y < sq.min_))
        + d.data.countP (fun y => decide (sq.max_ < y)) : ℕ) : ℚ)
      ≤ ((d.rows * d.cols : ℕ) : ℚ) * (1 - p.quantile) := by
  have hN : 0 < d.rows * d.cols := by
    rcases Nat.eq_zero_or_pos (d.rows * d.cols) with h | h
    · rcases Nat.mul_eq_zero.mp h with h' | h'
      exacts [absurd h' hr, absurd h' hc]
    · exact h
  have hlo : lowRank p (d.rows * d.cols) < d.rows * d.cols :=
    lowRank_lt h0 (le_of_lt h1) hN
  have hslen : (sortedData d).length = d.rows * d.cols := by
    rw [sortedData_length, hlen]
  rw [train_scalar_eq_ok h0 (le_of_lt h1) hr hc] at htr
  injection htr with h
  have hmin : sq.min_ = (sortedData d).getD (lowRank p (d.rows * d.cols)) 0 := by
    rw [← h]
  have hmax : sq.max_ = (sortedData d).getD
      (d.rows * d.cols - lowRank p (d.rows * d.cols) - 1) 0 := by
    rw [← h]
  have hglo : lowRank p (d.rows * d.cols) < (sortedData d).length := by
    rw [hslen]; exact hlo
  have hghi : d.rows * d.cols - lowRank p (d.rows * d.cols) - 1 < (sortedData d).length := by
    rw [hslen]; omega
  have hminE : sq.min_ = (sortedData d)[lowRank p (d.rows * d.cols)] := by
    rw [hmin]
    exact List.getD_eq_getElem _ _ hglo
  have hmaxE : sq.max_
      = (sortedData d)[d.rows * d.cols - lowRank p (d.rows * d.cols) - 1] := by
    rw [hmax]
    exact List.getD_eq_getElem _ _ hghi
  have hc1 : d.data.countP (fun y => decide (y < sq.min_))
      ≤ lowRank p (d.rows * d.cols) := by
    rw [hminE, ← (sortedData_perm d).countP_eq]
    exact countP_lt_le_of_le_drop (sorted_le_of_mem_drop (sortedData_sorted d) hglo)
  have hc2 : d.data.countP (fun y => decide (sq.max_ < y))
      ≤ lowRank p (d.rows * d.cols) := by
    rw [hmaxE, ← (sortedData_perm d).countP_eq]
    have hb := countP_gt_le_of_le_take
      (sorted_mem_take_le (sortedData_sorted d) hghi)
    refine le_trans hb ?_
    rw [hslen]
    omega
  refine ⟨hmin, hmax, hc1, hc2, ?_⟩
  have hsum : d.data.countP (fun y => decide (y < sq.min_))
      + d.data.countP (fun y => decide (sq.max_ < y))
      ≤ 2 * lowRank p (d.rows * d.cols) := by omega
  have hcast : ((d.data.countP (fun y => decide (y < sq.min_))
      + d.data.countP (fun y => decide (sq.max_ < y)) : ℕ) : ℚ)
      ≤ ((2 * lowRank p (d.rows * d.cols) : ℕ) : ℚ) := Nat.cast_le.mpr hsum
  have hrank := @lowRank_cast_le p (d.rows * d.cols) (le_of_lt h1)
  push_cast at hcast hrank ⊢
  linarith

/-- C5 witness: the spec scenario `[[0,10],[20,30]]` with `quantile = 1/2`
excludes one value from each tail: the trained range is `[10, 20]` and each
tail count is at most `1`. -/
theorem train_tail_bounds_witness :
    (⟨10, 20⟩ : ScalarQuantizer).min_
      = (sortedData ⟨2, 2, [0, 10, 20, 30]⟩).getD (lowRank ⟨1/2⟩ (2 * 2)) 0 ∧
    (⟨10, 20⟩ : ScalarQuantizer).max_
      = (sortedData ⟨2, 2, [0, 10, 20, 30]⟩).getD (2 * 2 - lowRank ⟨1/2⟩ (2 * 2) - 1) 0 ∧
    ([0, 10, 20, 30] : List ℚ).countP
      (fun y => decide (y < (⟨10, 20⟩ : ScalarQuantizer).min_)) ≤ lowRank ⟨1/2⟩ (2 * 2) ∧
    ([0, 10, 20, 30] : List ℚ).countP
      (fun y => decide ((⟨10, 20⟩ : ScalarQuantizer).max_ < y)) ≤ lowRank ⟨1/2⟩ (2 * 2) ∧
    ((([0, 10, 20, 30] : List ℚ).countP
        (fun y => decide (y < (⟨10, 20⟩ : ScalarQuantizer).min_))
      + ([0, 10, 20, 30] : List ℚ).countP
        (fun y => decide ((⟨10, 20⟩ : ScalarQuantizer).max_ < y)) : ℕ) : ℚ)
      ≤ ((2 * 2 : ℕ) : ℚ) * (1 - (1/2 : ℚ)) :=
  train_tail_bounds ⟨1/2⟩ ⟨2, 2, [0, 10, 20, 30]⟩ ⟨10, 20⟩ (by norm_num) (by norm_num)
    (by decide) (by decide) rfl
    (by norm_num [train_scalar, sortedData, lowRank, List.insertionSort, List.orderedInsert])

/-- C7: the host and device call forms agree: training, forward transform and
inverse transform give numerically identical results on the same input,
whichever substrate model executes them. -/
theorem host_device_equivalent :
    (∀ (p : sq_params) (d : MatrixView ℚ),
      train_scalar_device p d = train_scalar p d) ∧
    (∀ (qp : QuantRange) (sq : ScalarQuantizer) (d : MatrixView ℚ) (outR outC : ℕ),
      transform_device qp sq d outR outC = transform qp sq d outR outC) ∧
    (∀ (qp : QuantRange) (sq : ScalarQuantizer) (dz : MatrixView ℤ) (outR outC : ℕ),
      inverse_transform_device qp sq dz outR outC
        = inverse_transform qp sq dz outR outC) := by
  refine ⟨fun p d => ?_, fun qp sq d outR outC => ?_, fun qp sq dz outR outC => ?_⟩
  · simp only [train_scalar_device, train_scalar, mergeSort_eq_insertionSort, sortedData]
  · simp only [transform_device, transform, ofFn_get_map]
  · simp only [inverse_transform_device, inverse_transform, ofFn_get_map]

end CuvsQuant
